import Mathlib

/- Verification of the GPQA evaluation pipeline in evaluation/gpqa/run_infer.py.
   Python strings are modelled as lists of characters. -/

/-- Whitespace characters removed by the Python str.strip method (ASCII range;
    the inputs handled by this pipeline are ASCII). -/
def isPySpace (c : Char) : Bool :=
  c = ' ' || c = '\t' || c = '\n' || c = '\r' || c = '\x0b' || c = '\x0c'

/-- Python str.strip with no arguments: remove leading and trailing whitespace. -/
def pyStrip (s : List Char) : List Char :=
  ((s.dropWhile isPySpace).reverse.dropWhile isPySpace).reverse

/-- First index at which pat occurs as a contiguous substring of the second list,
    scanning from the left; none if it never occurs. -/
def findOcc (pat : List Char) : List Char → Option Nat
  | [] => if pat.isEmpty then some 0 else none
  | c :: rest =>
    if pat.isPrefixOf (c :: rest) then some 0
    else (findOcc pat rest).map (fun n => n + 1)

/-- Opening delimiter of the final-answer marker. -/
def openDelim : List Char := "<<FINAL_ANSWER||".data

/-- Closing delimiter of the final-answer marker. -/
def closeDelim : List Char := "||FINAL_ANSWER>>".data

/-- Sentinel returned by parse_final_answer when the marker is absent. -/
def sentinelAnswer : List Char := "No final answer found in the provided string.".data

/-- Semantics of the regular expression of parse_final_answer, with re.DOTALL,
    attempted at start position i: the opening delimiter must occur at i, and the
    lazy group captures up to the first later occurrence of the closing delimiter
    (any characters, newlines included, may stand in between). -/
def matchCaptureAt (s : List Char) (i : Nat) : Option (List Char) :=
  if openDelim.isPrefixOf (s.drop i) then
    (findOcc closeDelim (s.drop (i + openDelim.length))).map
      (fun k => (s.drop (i + openDelim.length)).take k)
  else none

/-- Leftmost search, as re.search: try start positions i, i+1, ... in order,
    with enough fuel to cover the whole input. -/
def searchAux (s : List Char) (i fuel : Nat) : Option (List Char) :=
  match fuel with
  | 0 => none
  | Nat.succ fuel₁ =>
    match matchCaptureAt s i with
    | some cap => some cap
    | none => searchAux s (i + 1) fuel₁

/-- Captured group of the first match of the final-answer pattern in s, if any. -/
def regexSearch (s : List Char) : Option (List Char) :=
  searchAux s 0 (s.length + 1)

/-- Translation of parse_final_answer (run_infer.py lines 55 to 68): search for the
    final-answer marker, return the stripped capture, or the sentinel on no match. -/
def parse_final_answer (final_answer : List Char) : List Char :=
  match regexSearch final_answer with
  | some cap => pyStrip cap
  | none => sentinelAnswer

/-- Translation of compare_answers (lines 71 to 73): Python string equality. -/
def compare_answers (predicted_answer ground_truth : List Char) : Bool :=
  predicted_answer == ground_truth

/-- Translation of get_test_result (lines 76 to 86): parse then compare. -/
def get_test_result (model_output ground_truth : List Char) : Bool :=
  compare_answers (parse_final_answer model_output) ground_truth

/-- Specification-side description of one match of the final-answer pattern starting
    at index i with captured group b: the input decomposes around the two delimiters. -/
def MatchAt (s : List Char) (i : Nat) (b : List Char) : Prop :=
  ∃ a c, s = a ++ openDelim ++ b ++ closeDelim ++ c ∧ a.length = i

/-- Specification-side description of the captured group of the first occurrence of
    the final-answer pattern: the match starts at the leftmost possible index, and
    among the matches at that index the captured group is shortest (lazy group). -/
def FirstMatchCapture (s cap : List Char) : Prop :=
  ∃ i, (MatchAt s i cap ∧ ∀ b, MatchAt s i b → cap.length ≤ b.length) ∧
    ∀ j, j < i → ∀ b, ¬ MatchAt s j b

/-- Error values raised along the Python code paths modelled here. -/
inductive PyError where
  | keyError (key : List Char)
  | valueError
  | assertionError (msg : List Char)
  | osError (msg : List Char)
  | agentLoopError (msg : List Char)
deriving Repr, DecidableEq

/-- Raw GPQA record as a Python dict: each expected key may be absent. -/
structure RawRecord where
  question : Option (List Char)
  correctAnswer : Option (List Char)
  incorrect1 : Option (List Char)
  incorrect2 : Option (List Char)
  incorrect3 : Option (List Char)
deriving Repr, DecidableEq

/-- Normalized instance produced by convert_instance_dict: question text, the four
    shuffled choices, and the letter of the correct choice. -/
structure NormalizedInstance where
  question : List Char
  choices : List (List Char)
  correct_solution : List Char
deriving Repr, DecidableEq

/-- Python list.index: index of the first occurrence of x; ValueError when absent. -/
def listIndex {α : Type} [DecidableEq α] (x : α) : List α → Except PyError Nat
  | [] => .error .valueError
  | y :: ys => if y = x then .ok 0 else (listIndex x ys).map (fun n => n + 1)

/-- Translation of convert_instance_dict (lines 89 to 114). The in-place
    random.shuffle is modelled by an explicit shuffle-function parameter; the
    theorems assume of it only that it permutes its argument. A missing dict key
    raises KeyError, read in the order of the source. -/
def convert_instance_dict (shuffle : List (List Char) → List (List Char))
    (inst : RawRecord) : Except PyError NormalizedInstance :=
  match inst.question with
  | none => .error (.keyError "Question".data)
  | some q =>
    match inst.correctAnswer with
    | none => .error (.keyError "Correct Answer".data)
    | some correct_answer =>
      match inst.incorrect1 with
      | none => .error (.keyError "Incorrect Answer 1".data)
      | some w1 =>
        match inst.incorrect2 with
        | none => .error (.keyError "Incorrect Answer 2".data)
        | some w2 =>
          match inst.incorrect3 with
          | none => .error (.keyError "Incorrect Answer 3".data)
          | some w3 =>
            let choices := shuffle [correct_answer, w1, w2, w3]
            match listIndex correct_answer choices with
            | .error e => .error e
            | .ok correct_index =>
              .ok { question := q, choices := choices,
                    correct_solution := [Char.ofNat (65 + correct_index)] }

/-- Shared workspace configuration fields mutated by process_instance. -/
structure Config where
  workspace_mount_path : List Char
  workspace_base : List Char
deriving Repr, DecidableEq

/-- Synthetic user-response callbacks registered per agent class. -/
inductive FakeResp where
  | codeact_user_response
  | monologue_user_response
deriving Repr, DecidableEq

/-- Registry AGENT_CLS_TO_FAKE_USER_RESPONSE_FN (lines 45 to 48); process_instance
    looks it up with dict.get, so absence yields none rather than an error. -/
def AGENT_CLS_TO_FAKE_USER_RESPONSE_FN (cls : List Char) : Option FakeResp :=
  if cls = "CodeActAgent".data then some .codeact_user_response
  else if cls = "MonologueAgent".data then some .monologue_user_response
  else none

/-- Registry AGENT_CLS_TO_INST_SUFFIX (lines 50 to 52); process_instance indexes it
    with plain dict subscripting, so absence raises KeyError. -/
def AGENT_CLS_TO_INST_SUFFIX (cls : List Char) : Option (List Char) :=
  if cls = "CodeActAgent".data then
    some "\n\n SUPER IMPORTANT: When you think you have solved the question, first report it back to the user in the requested format. Only once that is done, in the next turn, please run the following command: <execute_bash> exit </execute_bash>.\n".data
  else none

/-- Posix os.path.join restricted to two components, as called at lines 127 and
    131: an absolute second component replaces the first, otherwise a single
    separator is inserted unless the first is empty or already ends in one. -/
def os_path_join (a b : List Char) : List Char :=
  if b.head? = some '/' then b
  else if a = [] ∨ a.getLast? = some '/' then a ++ b
  else a ++ '/' :: b

/-- Model of pathlib.Path.mkdir with parents true (line 132): the filesystem is the
    set of existing directories; with exist_ok the call succeeds whether or not the
    directory exists, while without exist_ok an existing directory raises. -/
def pathlib_mkdir (exist_ok : Bool) (fs : List (List Char)) (p : List Char) :
    Except PyError (List (List Char)) :=
  if p ∈ fs then
    if exist_ok then .ok fs else .error (.osError "FileExistsError".data)
  else .ok (p :: fs)

/-- Terminal state returned by the agent loop; the evaluation reads its last agent
    message and last error. -/
structure AgentState where
  lastMessage : List Char
  last_error : Option (List Char)
deriving Repr, DecidableEq

/-- Output record assembled by process_instance (lines 225 to 234), restricted to
    the fields that depend on the modelled computation. -/
structure Output where
  instruction : List Char
  error : Option (List Char)
  test_result : Bool
deriving Repr, DecidableEq

/-- Instruction template of lines 167 to 185, with the question and the four
    choices interpolated. -/
def gpqa_instruction (q c0 c1 c2 c3 : List Char) : List Char :=
  "\n        What is the correct answer to this question:\n\n        ".data ++ q
    ++ "\n\n\n        Choices:\n\n        (A) ".data ++ c0
    ++ "\n\n        (B) ".data ++ c1
    ++ "\n\n        (C) ".data ++ c2
    ++ "\n\n        (D) ".data ++ c3
    ++ "\n\n        \n\n\n\n        MOST IMPORTANT: Format your response as follows:\n        <<FINAL_ANSWER||\n        <insert correct answer here, must be one of A, B, C, D> (Please dont use any additional characters. Just the letter of the correct answer (A/B/C/D).)\n        ||FINAL_ANSWER>>\n\n        Additional Instructions:\n        - You should ONLY interact with the environment provided to you AND NEVER ASK FOR HUMAN HELP.\n        ".data

/-- Result of one process_instance call: the Python return value or the raised
    exception, the global configuration on exit, the arguments the agent loop was
    invoked with when it was reached (none when never invoked), and the workspace
    path computed for the instance. -/
structure PIResult where
  result : Except PyError Output
  finalConfig : Config
  loopCall : Option (List Char × Option FakeResp)
  workspacePathUsed : List Char

/-- Translation of process_instance (lines 117 to 242). Opaque collaborators are
    parameters: agentCreateErr is a failure of the agent construction at line 123,
    before the configuration is saved; mkdirErr a failure of the mkdir call at
    line 132; runController the agent loop of lines 191 to 201, which receives the
    instruction and the fake-user-response registry entry, may read and mutate the
    global configuration, and either returns an optional terminal state or raises.
    The finally block of lines 239 to 241 is modelled by restoring the two saved
    fields on every exit path past line 125; the logging of lines 139 to 163 has
    no modelled effect. The prepared instance always carries four choices, so the
    subscripts of lines 172 to 175 are modelled with a default. -/
def process_instance (agentClassName : List Char) (inst : NormalizedInstance)
    (pidStr : List Char) (agentCreateErr mkdirErr : Option PyError)
    (runController : List Char → Option FakeResp → Config →
      Except PyError (Option AgentState) × Config)
    (cfg : Config) : PIResult :=
  match agentCreateErr with
  | some e =>
    { result := .error e, finalConfig := cfg, loopCall := none,
      workspacePathUsed := [] }
  | none =>
    let old_workspace_mount_path := cfg.workspace_mount_path
    let old_workspace_base := cfg.workspace_base
    let workspace_mount_path :=
      os_path_join (os_path_join cfg.workspace_mount_path "_eval_workspace".data)
        pidStr
    let restore := fun (c : Config) =>
      { c with workspace_mount_path := old_workspace_mount_path,
               workspace_base := old_workspace_base }
    match mkdirErr with
    | some e =>
      { result := .error e, finalConfig := restore cfg, loopCall := none,
        workspacePathUsed := workspace_mount_path }
    | none =>
      let cfg₁ : Config := { cfg with workspace_base := workspace_mount_path,
                                      workspace_mount_path := workspace_mount_path }
      let instruction₀ := gpqa_instruction inst.question (inst.choices.getD 0 [])
        (inst.choices.getD 1 []) (inst.choices.getD 2 []) (inst.choices.getD 3 [])
      match AGENT_CLS_TO_INST_SUFFIX agentClassName with
      | none =>
        { result := .error (.keyError agentClassName), finalConfig := restore cfg₁,
          loopCall := none, workspacePathUsed := workspace_mount_path }
      | some suffix =>
        let instruction := instruction₀ ++ suffix
        let fakeFn := AGENT_CLS_TO_FAKE_USER_RESPONSE_FN agentClassName
        let runRes := runController instruction fakeFn cfg₁
        match runRes.1 with
        | .error e =>
          { result := .error e, finalConfig := restore runRes.2,
            loopCall := some (instruction, fakeFn),
            workspacePathUsed := workspace_mount_path }
        | .ok none =>
          { result := .error (.assertionError "State should not be None.".data),
            finalConfig := restore runRes.2, loopCall := some (instruction, fakeFn),
            workspacePathUsed := workspace_mount_path }
        | .ok (some state) =>
          let test_result := get_test_result state.lastMessage inst.correct_solution
          let output : Output :=
            { instruction := instruction, error := state.last_error,
              test_result := test_result }
          { result := .ok output,
            finalConfig := restore runRes.2, loopCall := some (instruction, fakeFn),
            workspacePathUsed := workspace_mount_path }

theorem isPrefixOf_eq_true_iff {l₁ l₂ : List Char} :
    l₁.isPrefixOf l₂ = true ↔ l₁ <+: l₂ :=
  List.isPrefixOf_iff_prefix

theorem openDelim_ne_nil : openDelim ≠ [] := by decide

theorem closeDelim_ne_nil : closeDelim ≠ [] := by decide

theorem prefix_drop_iff_exists {pat u : List Char} {j : Nat} (hp : pat ≠ []) :
    pat <+: u.drop j ↔ ∃ a c, u = a ++ pat ++ c ∧ a.length = j := by
  constructor
  · intro h
    obtain ⟨t, ht⟩ := h
    have hjlt : j < u.length := by
      by_contra hge
      push_neg at hge
      rw [List.drop_eq_nil_of_le hge] at ht
      exact hp (List.append_eq_nil.mp ht).1
    refine ⟨u.take j, t, ?_, ?_⟩
    · conv_lhs => rw [← List.take_append_drop j u, ← ht]
      simp [List.append_assoc]
    · simp
      omega
  · rintro ⟨a, c, rfl, rfl⟩
    rw [List.append_assoc, List.drop_left]
    exact ⟨c, rfl⟩

theorem findOcc_eq_some_iff {pat : List Char} (hp : pat ≠ []) :
    ∀ {s : List Char} {k : Nat}, findOcc pat s = some k ↔
      (pat <+: s.drop k ∧ ∀ j, j < k → ¬ pat <+: s.drop j) := by
  intro s
  induction s with
  | nil =>
    intro k
    simp only [findOcc, List.isEmpty_iff]
    rw [if_neg hp]
    simp only [List.drop_nil]
    constructor
    · intro h
      cases h
    · rintro ⟨⟨t, ht⟩, -⟩
      exact absurd (List.append_eq_nil.mp ht).1 hp
  | cons c rest ih =>
    intro k
    by_cases hpre : pat.isPrefixOf (c :: rest)
    · have hpre₂ : pat <+: c :: rest := isPrefixOf_eq_true_iff.mp hpre
      simp only [findOcc, if_pos hpre]
      constructor
      · intro h
        obtain rfl : k = 0 := (Option.some_inj.mp h).symm
        exact ⟨by simpa using hpre₂, by omega⟩
      · rintro ⟨h1, h2⟩
        cases k with
        | zero => rfl
        | succ k₁ => exact absurd hpre₂ (by simpa using h2 0 (Nat.succ_pos _))
    · have hnpre : ¬ pat <+: c :: rest := fun h =>
        hpre (isPrefixOf_eq_true_iff.mpr h)
      simp only [findOcc, if_neg hpre, Option.map_eq_some']
      constructor
      · rintro ⟨m, hm, rfl⟩
        obtain ⟨hm1, hm2⟩ := ih.mp hm
        refine ⟨by simpa using hm1, ?_⟩
        intro j hj
        cases j with
        | zero => simpa using hnpre
        | succ j₁ =>
          rw [List.drop_succ_cons]
          exact hm2 j₁ (by omega)
      · rintro ⟨h1, h2⟩
        cases k with
        | zero => exact absurd (by simpa using h1) hnpre
        | succ k₁ =>
          refine ⟨k₁, ih.mpr ⟨by simpa using h1, ?_⟩, rfl⟩
          intro j hj
          have := h2 (j + 1) (by omega)
          simpa using this

theorem findOcc_eq_none_iff {pat : List Char} (hp : pat ≠ []) :
    ∀ {s : List Char}, findOcc pat s = none ↔ ∀ j, ¬ pat <+: s.drop j := by
  intro s
  induction s with
  | nil =>
    simp only [findOcc, List.isEmpty_iff]
    rw [if_neg hp]
    simp only [List.drop_nil, true_iff]
    rintro j ⟨t, ht⟩
    exact absurd (List.append_eq_nil.mp ht).1 hp
  | cons c rest ih =>
    by_cases hpre : pat.isPrefixOf (c :: rest)
    · have hpre₂ : pat <+: c :: rest := isPrefixOf_eq_true_iff.mp hpre
      simp only [findOcc, if_pos hpre]
      constructor
      · intro h
        cases h
      · intro h
        exact absurd (by simpa using hpre₂) (h 0)
    · have hnpre : ¬ pat <+: c :: rest := fun h =>
        hpre (isPrefixOf_eq_true_iff.mpr h)
      simp only [findOcc, if_neg hpre, Option.map_eq_none']
      rw [ih]
      constructor
      · intro h j
        cases j with
        | zero => simpa using hnpre
        | succ j₁ => simpa using h j₁
      · intro h j
        simpa using h (j + 1)

theorem matchAt_iff {s : List Char} {i : Nat} {b : List Char} :
    MatchAt s i b ↔
      openDelim <+: s.drop i ∧
        ∃ c, s.drop (i + openDelim.length) = b ++ closeDelim ++ c := by
  constructor
  · rintro ⟨a, c, rfl, rfl⟩
    constructor
    · have h₁ : (a ++ (openDelim ++ (b ++ closeDelim ++ c))).drop a.length
          = openDelim ++ (b ++ closeDelim ++ c) := List.drop_left _ _
      have h₂ : a ++ (openDelim ++ (b ++ closeDelim ++ c))
          = a ++ openDelim ++ b ++ closeDelim ++ c := by simp [List.append_assoc]
      rw [h₂] at h₁
      rw [h₁]
      exact List.prefix_append _ _
    · refine ⟨c, ?_⟩
      have h₁ : ((a ++ openDelim) ++ (b ++ closeDelim ++ c)).drop ((a ++ openDelim).length)
          = b ++ closeDelim ++ c := List.drop_left _ _
      have h₂ : (a ++ openDelim) ++ (b ++ closeDelim ++ c)
          = a ++ openDelim ++ b ++ closeDelim ++ c := by simp [List.append_assoc]
      rw [h₂] at h₁
      rw [List.length_append] at h₁
      exact h₁
  · rintro ⟨hpre, c, hdrop⟩
    obtain ⟨a, t, hu, ha⟩ := (prefix_drop_iff_exists openDelim_ne_nil).mp hpre
    have hlen : (a ++ openDelim).length = i + openDelim.length := by simp [ha]
    have hdl : s.drop (i + openDelim.length) = t := by
      have h₁ := List.drop_left (a ++ openDelim) t
      rw [hlen] at h₁
      rw [hu]
      exact h₁
    refine ⟨a, c, ?_, ha⟩
    have ht : t = b ++ closeDelim ++ c := hdl.symm.trans hdrop
    rw [hu, ht]
    simp [List.append_assoc]

theorem matchCaptureAt_eq_some_iff {s : List Char} {i : Nat} {cap : List Char} :
    matchCaptureAt s i = some cap ↔
      MatchAt s i cap ∧ ∀ b, MatchAt s i b → cap.length ≤ b.length := by
  by_cases hpre : openDelim.isPrefixOf (s.drop i)
  · have hpre₂ : openDelim <+: s.drop i := isPrefixOf_eq_true_iff.mp hpre
    simp only [matchCaptureAt, if_pos hpre, Option.map_eq_some']
    constructor
    · rintro ⟨k, hk, rfl⟩
      obtain ⟨hk1, hk2⟩ := (findOcc_eq_some_iff closeDelim_ne_nil).mp hk
      obtain ⟨a₂, c₂, hu, ha₂⟩ := (prefix_drop_iff_exists closeDelim_ne_nil).mp hk1
      have htake : (s.drop (i + openDelim.length)).take k = a₂ := by
        rw [hu, ← ha₂]
        have h₂ : a₂ ++ (closeDelim ++ c₂) = a₂ ++ closeDelim ++ c₂ := by
          simp [List.append_assoc]
        rw [← h₂]
        exact List.take_left _ _
      refine ⟨?_, ?_⟩
      · rw [htake]
        exact matchAt_iff.mpr ⟨hpre₂, c₂, hu⟩
      · intro b hb
        obtain ⟨-, cb, hub⟩ := matchAt_iff.mp hb
        have hocc : closeDelim <+: (s.drop (i + openDelim.length)).drop b.length :=
          (prefix_drop_iff_exists closeDelim_ne_nil).mpr ⟨b, cb, hub, rfl⟩
        have hk₃ : ¬ b.length < k := fun hlt => hk2 b.length hlt hocc
        rw [htake, ha₂]
        omega
    · rintro ⟨hm, hmin⟩
      obtain ⟨-, c₂, hu⟩ := matchAt_iff.mp hm
      refine ⟨cap.length, ?_, ?_⟩
      · apply (findOcc_eq_some_iff closeDelim_ne_nil).mpr
        refine ⟨(prefix_drop_iff_exists closeDelim_ne_nil).mpr ⟨cap, c₂, hu, rfl⟩, ?_⟩
        intro j hj hocc
        obtain ⟨a₂, c₃, hu₂, ha₂⟩ := (prefix_drop_iff_exists closeDelim_ne_nil).mp hocc
        have hm₂ : MatchAt s i a₂ := matchAt_iff.mpr ⟨hpre₂, c₃, hu₂⟩
        have := hmin a₂ hm₂
        omega
      · rw [hu]
        have h₂ : cap ++ (closeDelim ++ c₂) = cap ++ closeDelim ++ c₂ := by
          simp [List.append_assoc]
        rw [← h₂]
        exact List.take_left _ _
  · have hnpre : ¬ openDelim <+: s.drop i := fun h =>
      hpre (isPrefixOf_eq_true_iff.mpr h)
    simp only [matchCaptureAt, if_neg hpre]
    constructor
    · intro h
      cases h
    · rintro ⟨hm, -⟩
      exact absurd (matchAt_iff.mp hm).1 hnpre

theorem matchCaptureAt_eq_none_iff {s : List Char} {i : Nat} :
    matchCaptureAt s i = none ↔ ∀ b, ¬ MatchAt s i b := by
  by_cases hpre : openDelim.isPrefixOf (s.drop i)
  · have hpre₂ : openDelim <+: s.drop i := isPrefixOf_eq_true_iff.mp hpre
    simp only [matchCaptureAt, if_pos hpre, Option.map_eq_none']
    rw [findOcc_eq_none_iff closeDelim_ne_nil]
    constructor
    · intro h b hb
      obtain ⟨-, cb, hub⟩ := matchAt_iff.mp hb
      exact h b.length ((prefix_drop_iff_exists closeDelim_ne_nil).mpr ⟨b, cb, hub, rfl⟩)
    · intro h j hocc
      obtain ⟨a₂, c₂, hu₂, ha₂⟩ := (prefix_drop_iff_exists closeDelim_ne_nil).mp hocc
      exact h a₂ (matchAt_iff.mpr ⟨hpre₂, c₂, hu₂⟩)
  · have hnpre : ¬ openDelim <+: s.drop i := fun h =>
      hpre (isPrefixOf_eq_true_iff.mpr h)
    simp only [matchCaptureAt, if_neg hpre]
    constructor
    · intro _ b hb
      exact absurd (matchAt_iff.mp hb).1 hnpre
    · intro _
      trivial

theorem searchAux_eq_some_iff {s cap : List Char} :
    ∀ {fuel i : Nat}, searchAux s i fuel = some cap ↔
      ∃ d, d < fuel ∧ matchCaptureAt s (i + d) = some cap ∧
        ∀ e, e < d → matchCaptureAt s (i + e) = none := by
  intro fuel
  induction fuel with
  | zero =>
    intro i
    simp [searchAux]
  | succ fuel₁ ih =>
    intro i
    cases hm : matchCaptureAt s i with
    | some c₀ =>
      simp only [searchAux, hm, Option.some_inj]
      constructor
      · rintro rfl
        exact ⟨0, Nat.succ_pos _, by simpa using hm, by omega⟩
      · rintro ⟨d, hd, hd1, hd2⟩
        cases d with
        | zero =>
          rw [Nat.add_zero, hm] at hd1
          exact Option.some_inj.mp hd1
        | succ d₁ =>
          have h₀ := hd2 0 (Nat.succ_pos _)
          rw [Nat.add_zero, hm] at h₀
          cases h₀
    | none =>
      simp only [searchAux, hm]
      rw [ih]
      constructor
      · rintro ⟨d, hd, hd1, hd2⟩
        refine ⟨d + 1, by omega, ?_, ?_⟩
        · rw [show i + (d + 1) = i + 1 + d by omega]
          exact hd1
        · intro e he
          cases e with
          | zero => simpa using hm
          | succ e₁ =>
            rw [show i + (e₁ + 1) = i + 1 + e₁ by omega]
            exact hd2 e₁ (by omega)
      · rintro ⟨d, hd, hd1, hd2⟩
        cases d with
        | zero =>
          rw [Nat.add_zero, hm] at hd1
          cases hd1
        | succ d₁ =>
          refine ⟨d₁, by omega, ?_, ?_⟩
          · rw [show i + 1 + d₁ = i + (d₁ + 1) by omega]
            exact hd1
          · intro e he
            rw [show i + 1 + e = i + (e + 1) by omega]
            exact hd2 (e + 1) (by omega)

theorem searchAux_eq_none_iff {s : List Char} :
    ∀ {fuel i : Nat}, searchAux s i fuel = none ↔
      ∀ d, d < fuel → matchCaptureAt s (i + d) = none := by
  intro fuel
  induction fuel with
  | zero =>
    intro i
    simp [searchAux]
  | succ fuel₁ ih =>
    intro i
    cases hm : matchCaptureAt s i with
    | some c₀ =>
      simp only [searchAux, hm]
      constructor
      · intro h
        cases h
      · intro h
        have h₀ := h 0 (Nat.succ_pos _)
        rw [Nat.add_zero, hm] at h₀
        cases h₀
    | none =>
      simp only [searchAux, hm]
      rw [ih]
      constructor
      · intro h d hd
        cases d with
        | zero => simpa using hm
        | succ d₁ =>
          rw [show i + (d₁ + 1) = i + 1 + d₁ by omega]
          exact h d₁ (by omega)
      · intro h d hd
        rw [show i + 1 + d = i + (d + 1) by omega]
        exact h (d + 1) (by omega)

theorem matchCaptureAt_eq_none_of_ge {s : List Char} {i : Nat} (h : s.length ≤ i) :
    matchCaptureAt s i = none := by
  have hdrop : s.drop i = [] := List.drop_eq_nil_of_le h
  have hfalse : openDelim.isPrefixOf ([] : List Char) = false := by decide
  simp [matchCaptureAt, hdrop, hfalse]

theorem regexSearch_eq_some_iff {s cap : List Char} :
    regexSearch s = some cap ↔
      ∃ i, matchCaptureAt s i = some cap ∧ ∀ j, j < i → matchCaptureAt s j = none := by
  rw [regexSearch, searchAux_eq_some_iff]
  constructor
  · rintro ⟨d, -, hd1, hd2⟩
    refine ⟨d, by simpa using hd1, ?_⟩
    intro j hj
    simpa using hd2 j hj
  · rintro ⟨i, hi1, hi2⟩
    have hile : i ≤ s.length := by
      by_contra hgt
      push_neg at hgt
      rw [matchCaptureAt_eq_none_of_ge (by omega)] at hi1
      cases hi1
    refine ⟨i, by omega, by simpa using hi1, ?_⟩
    intro e he
    simpa using hi2 e he

theorem regexSearch_eq_none_iff {s : List Char} :
    regexSearch s = none ↔ ∀ i, matchCaptureAt s i = none := by
  rw [regexSearch, searchAux_eq_none_iff]
  constructor
  · intro h i
    by_cases hi : i < s.length + 1
    · simpa using h i hi
    · exact matchCaptureAt_eq_none_of_ge (by omega)
  · intro h d _
    simpa using h d

theorem regexSearch_some_iff_firstMatch {s cap : List Char} :
    regexSearch s = some cap ↔ FirstMatchCapture s cap := by
  rw [regexSearch_eq_some_iff]
  unfold FirstMatchCapture
  constructor
  · rintro ⟨i, hi1, hi2⟩
    refine ⟨i, matchCaptureAt_eq_some_iff.mp hi1, ?_⟩
    intro j hj b
    exact (matchCaptureAt_eq_none_iff.mp (hi2 j hj)) b
  · rintro ⟨i, hi1, hi2⟩
    refine ⟨i, matchCaptureAt_eq_some_iff.mpr hi1, ?_⟩
    intro j hj
    exact matchCaptureAt_eq_none_iff.mpr (hi2 j hj)

theorem firstMatch_exists_of_marker {s : List Char}
    (h : ∃ a b c, s = a ++ openDelim ++ b ++ closeDelim ++ c) :
    ∃ cap, FirstMatchCapture s cap := by
  obtain ⟨a, b, c, hs⟩ := h
  cases hr : regexSearch s with
  | some cap => exact ⟨cap, regexSearch_some_iff_firstMatch.mp hr⟩
  | none =>
    exfalso
    have hnone := regexSearch_eq_none_iff.mp hr a.length
    exact (matchCaptureAt_eq_none_iff.mp hnone) b ⟨a, c, hs, rfl⟩

theorem regexSearch_none_of_no_marker {s : List Char}
    (h : ¬ ∃ a b c, s = a ++ openDelim ++ b ++ closeDelim ++ c) :
    regexSearch s = none := by
  cases hr : regexSearch s with
  | none => rfl
  | some cap =>
    exfalso
    obtain ⟨i, ⟨hm, -⟩, -⟩ := regexSearch_some_iff_firstMatch.mp hr
    obtain ⟨a, c, hs, -⟩ := hm
    exact h ⟨a, cap, c, hs⟩

/-- C1: for every input string, parse_final_answer returns the leading/trailing
    whitespace-trimmed content of the captured group of the first occurrence of the
    pattern formed by the two final-answer delimiters (the captured group may span
    multiple lines); if the pattern does not occur, it returns the sentinel string
    announcing that no final answer was found. -/
theorem parse_final_answer_spec (s : List Char) :
    (∀ cap, FirstMatchCapture s cap → parse_final_answer s = pyStrip cap) ∧
    ((∃ a b c, s = a ++ openDelim ++ b ++ closeDelim ++ c) →
      ∃ cap, FirstMatchCapture s cap) ∧
    ((¬ ∃ a b c, s = a ++ openDelim ++ b ++ closeDelim ++ c) →
      parse_final_answer s = sentinelAnswer) := by
  refine ⟨?_, firstMatch_exists_of_marker, ?_⟩
  · intro cap hcap
    have hr : regexSearch s = some cap := regexSearch_some_iff_firstMatch.mpr hcap
    rw [parse_final_answer, hr]
  · intro h
    rw [parse_final_answer, regexSearch_none_of_no_marker h]

/-- Witness for C1 at a concrete input whose capture carries surrounding blanks. -/
theorem parse_final_answer_spec_witness :
    FirstMatchCapture "<<FINAL_ANSWER||  C  ||FINAL_ANSWER>>".data "  C  ".data ∧
    parse_final_answer "<<FINAL_ANSWER||  C  ||FINAL_ANSWER>>".data = "C".data := by
  have hcap : FirstMatchCapture "<<FINAL_ANSWER||  C  ||FINAL_ANSWER>>".data "  C  ".data :=
    regexSearch_some_iff_firstMatch.mp (by decide)
  refine ⟨hcap, ?_⟩
  have h := (parse_final_answer_spec "<<FINAL_ANSWER||  C  ||FINAL_ANSWER>>".data).1 _ hcap
  rw [h]
  decide

/-- C4: on any input free of the final-answer marker and any ground-truth letter
    A/B/C/D, get_test_result returns false: the sentinel produced by the extractor
    differs from every valid letter, so a missing final answer scores as incorrect;
    the functions are total, so no exception arises. -/
theorem get_test_result_no_marker (s gt : List Char)
    (hno : ¬ ∃ a b c, s = a ++ openDelim ++ b ++ closeDelim ++ c)
    (hgt : gt = "A".data ∨ gt = "B".data ∨ gt = "C".data ∨ gt = "D".data) :
    get_test_result s gt = false := by
  have hs : regexSearch s = none := regexSearch_none_of_no_marker hno
  simp only [get_test_result, compare_answers, parse_final_answer, hs]
  rcases hgt with rfl | rfl | rfl | rfl <;> decide

/-- Witness for C4 at the empty input and ground truth A. -/
theorem get_test_result_no_marker_witness :
    (¬ ∃ a b c, ([] : List Char) = a ++ openDelim ++ b ++ closeDelim ++ c) ∧
    get_test_result [] "A".data = false := by
  have hno : ¬ ∃ a b c, ([] : List Char) = a ++ openDelim ++ b ++ closeDelim ++ c := by
    rintro ⟨a, b, c, h⟩
    have h₁ := List.append_eq_nil.mp h.symm
    have h₂ := List.append_eq_nil.mp h₁.1
    exact closeDelim_ne_nil h₂.2
  exact ⟨hno, get_test_result_no_marker [] "A".data hno (Or.inl rfl)⟩

/-- C5: compare_answers is exact, case-sensitive string equality, with no folding
    or normalization; in particular A matches A and a does not match A. -/
theorem compare_answers_spec :
    (∀ p g : List Char, compare_answers p g = true ↔ p = g) ∧
    compare_answers "A".data "A".data = true ∧
    compare_answers "a".data "A".data = false := by
  refine ⟨?_, by decide, by decide⟩
  intro p g
  simp [compare_answers]

/-- Witness for C5 at a concrete pair of equal strings. -/
theorem compare_answers_spec_witness :
    compare_answers "B".data "B".data = true :=
  (compare_answers_spec.1 _ _).mpr rfl

theorem listIndex_spec {α : Type} [DecidableEq α] {x : α} :
    ∀ {xs : List α}, x ∈ xs →
      ∃ n, listIndex x xs = .ok n ∧ n < xs.length ∧ xs[n]? = some x ∧
        ∀ m, m < n → xs[m]? ≠ some x := by
  intro xs
  induction xs with
  | nil =>
    intro h
    cases h
  | cons y ys ih =>
    intro hmem
    by_cases hy : y = x
    · refine ⟨0, ?_, by simp, by simp [hy], by omega⟩
      simp [listIndex, hy]
    · have hmem₂ : x ∈ ys := by
        cases hmem with
        | head => exact absurd rfl hy
        | tail _ h => exact h
      obtain ⟨n, h1, h2, h3, h4⟩ := ih hmem₂
      refine ⟨n + 1, ?_, ?_, by simpa using h3, ?_⟩
      · simp [listIndex, hy, h1, Except.map]
      · simp only [List.length_cons]
        omega
      · intro m hm
        cases m with
        | zero => simpa using hy
        | succ m₁ => simpa using h4 m₁ (by omega)

/-- C2: for every raw record with question, one correct and three incorrect answer
    strings, and for every permutation the shuffle may produce, the prepared
    instance has a 4-element choices list that is a permutation (multiset-equal) of
    the four source answers, its correct letter is chr(65 + index) with index below
    4, hence one of A/B/C/D, and the choice at index ord(letter) - 65 is the
    correct answer text. -/
theorem convert_instance_dict_spec
    (shuffle : List (List Char) → List (List Char)) (q c w1 w2 w3 : List Char)
    (hper : (shuffle [c, w1, w2, w3]).Perm [c, w1, w2, w3]) :
    ∃ out, convert_instance_dict shuffle
        ⟨some q, some c, some w1, some w2, some w3⟩ = .ok out
      ∧ out.question = q
      ∧ out.choices = shuffle [c, w1, w2, w3]
      ∧ out.choices.Perm [c, w1, w2, w3]
      ∧ out.choices.length = 4
      ∧ ∃ idx, idx < 4
          ∧ out.correct_solution = [Char.ofNat (65 + idx)]
          ∧ (out.correct_solution = "A".data ∨ out.correct_solution = "B".data ∨
             out.correct_solution = "C".data ∨ out.correct_solution = "D".data)
          ∧ (Char.ofNat (65 + idx)).toNat - 65 = idx
          ∧ out.choices[idx]? = some c := by
  have hmem : c ∈ shuffle [c, w1, w2, w3] := hper.mem_iff.mpr (by simp)
  obtain ⟨n, h1, h2, h3, -⟩ := listIndex_spec hmem
  have hlen4 : (shuffle [c, w1, w2, w3]).length = 4 := by
    rw [hper.length_eq]
    rfl
  have hn4 : n < 4 := by omega
  have hcases : n = 0 ∨ n = 1 ∨ n = 2 ∨ n = 3 := by omega
  refine ⟨⟨q, shuffle [c, w1, w2, w3], [Char.ofNat (65 + n)]⟩, ?_, rfl, rfl, hper,
    hlen4, n, hn4, rfl, ?_, ?_, h3⟩
  · simp only [convert_instance_dict, h1]
  · rcases hcases with rfl | rfl | rfl | rfl <;> simp
  · rcases hcases with rfl | rfl | rfl | rfl <;> decide

/-- Witness for C2: a concrete record prepared with a reversing shuffle. -/
theorem convert_instance_dict_spec_witness :
    ∃ out, convert_instance_dict List.reverse
        ⟨some "Q".data, some "c0".data, some "x1".data, some "x2".data, some "x3".data⟩
        = .ok out
      ∧ out.question = "Q".data
      ∧ out.choices = List.reverse ["c0".data, "x1".data, "x2".data, "x3".data]
      ∧ out.choices.Perm ["c0".data, "x1".data, "x2".data, "x3".data]
      ∧ out.choices.length = 4
      ∧ ∃ idx, idx < 4
          ∧ out.correct_solution = [Char.ofNat (65 + idx)]
          ∧ (out.correct_solution = "A".data ∨ out.correct_solution = "B".data ∨
             out.correct_solution = "C".data ∨ out.correct_solution = "D".data)
          ∧ (Char.ofNat (65 + idx)).toNat - 65 = idx
          ∧ out.choices[idx]? = some "c0".data :=
  convert_instance_dict_spec List.reverse "Q".data "c0".data "x1".data "x2".data
    "x3".data (List.reverse_perm _)

/-- C10: when the correct answer string coincides with one of the incorrect answer
    strings, preparation still succeeds, and the letter names the first index of
    the shuffled choices whose element equals the correct answer text; the labeled
    slot therefore always holds the correct text. -/
theorem convert_instance_dict_duplicate_spec
    (shuffle : List (List Char) → List (List Char)) (q c w1 w2 w3 : List Char)
    (hper : (shuffle [c, w1, w2, w3]).Perm [c, w1, w2, w3])
    (_hdup : c = w1 ∨ c = w2 ∨ c = w3) :
    ∃ out idx, convert_instance_dict shuffle
        ⟨some q, some c, some w1, some w2, some w3⟩ = .ok out
      ∧ out.correct_solution = [Char.ofNat (65 + idx)]
      ∧ idx < 4
      ∧ out.choices[idx]? = some c
      ∧ ∀ m, m < idx → out.choices[m]? ≠ some c := by
  have hmem : c ∈ shuffle [c, w1, w2, w3] := hper.mem_iff.mpr (by simp)
  obtain ⟨n, h1, h2, h3, h4⟩ := listIndex_spec hmem
  have hlen4 : (shuffle [c, w1, w2, w3]).length = 4 := by
    rw [hper.length_eq]
    rfl
  refine ⟨⟨q, shuffle [c, w1, w2, w3], [Char.ofNat (65 + n)]⟩, n, ?_, rfl,
    by omega, h3, h4⟩
  simp only [convert_instance_dict, h1]

/-- Witness for C10: the correct text also appears as the first incorrect answer;
    the identity shuffle leaves the duplicate ahead, and index 0 is labeled. -/
theorem convert_instance_dict_duplicate_spec_witness :
    ∃ out idx, convert_instance_dict (fun l => l)
        ⟨some "Q".data, some "X".data, some "X".data, some "x2".data, some "x3".data⟩
        = .ok out
      ∧ out.correct_solution = [Char.ofNat (65 + idx)]
      ∧ idx < 4
      ∧ out.choices[idx]? = some "X".data
      ∧ ∀ m, m < idx → out.choices[m]? ≠ some "X".data :=
  convert_instance_dict_duplicate_spec (fun l => l) "Q".data "X".data "X".data
    "x2".data "x3".data (List.Perm.refl _) (Or.inl rfl)

/-- Counterexample to C7 as stated: a record carrying all four answer fields but no
    question field still makes convert_instance_dict fail (KeyError on Question). -/
theorem convert_instance_dict_no_question :
    convert_instance_dict (fun l => l)
      ⟨none, some "c".data, some "x1".data, some "x2".data, some "x3".data⟩
      = .error (.keyError "Question".data) := rfl

/-- C7 amended: a record missing any of the four answer fields fails with a
    missing-key error; a record carrying the question field and all four answer
    fields succeeds (the shuffle being a permutation). -/
theorem convert_instance_dict_missing_fields
    (shuffle : List (List Char) → List (List Char)) (r : RawRecord)
    (hshuffle : ∀ l, (shuffle l).Perm l) :
    ((r.correctAnswer = none ∨ r.incorrect1 = none ∨ r.incorrect2 = none ∨
        r.incorrect3 = none) →
      ∃ k, convert_instance_dict shuffle r = .error (.keyError k)) ∧
    ((∃ q, r.question = some q) ∧ (∃ c, r.correctAnswer = some c) ∧
        (∃ w1, r.incorrect1 = some w1) ∧ (∃ w2, r.incorrect2 = some w2) ∧
        (∃ w3, r.incorrect3 = some w3) →
      ∃ out, convert_instance_dict shuffle r = .ok out) := by
  obtain ⟨qo, co, w1o, w2o, w3o⟩ := r
  constructor
  · intro hmiss
    rcases qo with - | q
    · exact ⟨"Question".data, rfl⟩
    rcases co with - | c
    · exact ⟨"Correct Answer".data, rfl⟩
    rcases w1o with - | w1
    · exact ⟨"Incorrect Answer 1".data, rfl⟩
    rcases w2o with - | w2
    · exact ⟨"Incorrect Answer 2".data, rfl⟩
    rcases w3o with - | w3
    · exact ⟨"Incorrect Answer 3".data, rfl⟩
    simp at hmiss
  · rintro ⟨⟨q, rfl⟩, ⟨c, rfl⟩, ⟨w1, rfl⟩, ⟨w2, rfl⟩, ⟨w3, rfl⟩⟩
    have hmem : c ∈ shuffle [c, w1, w2, w3] := (hshuffle _).mem_iff.mpr (by simp)
    obtain ⟨n, h1, -, -, -⟩ := listIndex_spec hmem
    refine ⟨⟨q, shuffle [c, w1, w2, w3], [Char.ofNat (65 + n)]⟩, ?_⟩
    simp only [convert_instance_dict, h1]

/-- Witness for C7 amended, at a record missing the correct answer and at a fully
    populated record. -/
theorem convert_instance_dict_missing_fields_witness :
    (∃ k, convert_instance_dict (fun l => l)
        ⟨some "Q".data, none, some "x1".data, some "x2".data, some "x3".data⟩
        = .error (.keyError k)) ∧
    (∃ out, convert_instance_dict (fun l => l)
        ⟨some "Q".data, some "c".data, some "x1".data, some "x2".data, some "x3".data⟩
        = .ok out) := by
  constructor
  · exact (convert_instance_dict_missing_fields (fun l => l) _
      (fun l => List.Perm.refl l)).1 (Or.inl rfl)
  · exact (convert_instance_dict_missing_fields (fun l => l) _
      (fun l => List.Perm.refl l)).2
      ⟨⟨_, rfl⟩, ⟨_, rfl⟩, ⟨_, rfl⟩, ⟨_, rfl⟩, ⟨_, rfl⟩⟩

/-- C3: the two shared configuration fields observed after process_instance equal
    those observed before, on normal return and on every raising path (agent
    construction failure, mkdir failure, the unknown-agent-class lookup, an
    agent-loop exception — even one that itself mutated the configuration — and
    the failed non-null-state assertion); no outcome changes these two fields. -/
theorem process_instance_preserves_config
    (agentClassName : List Char) (inst : NormalizedInstance) (pidStr : List Char)
    (agentCreateErr mkdirErr : Option PyError)
    (runController : List Char → Option FakeResp → Config →
      Except PyError (Option AgentState) × Config) (cfg : Config) :
    (process_instance agentClassName inst pidStr agentCreateErr mkdirErr
        runController cfg).finalConfig.workspace_mount_path
      = cfg.workspace_mount_path ∧
    (process_instance agentClassName inst pidStr agentCreateErr mkdirErr
        runController cfg).finalConfig.workspace_base
      = cfg.workspace_base := by
  simp only [process_instance]
  split
  · exact ⟨by trivial, by trivial⟩
  · split
    · exact ⟨by trivial, by trivial⟩
    · split
      · exact ⟨by trivial, by trivial⟩
      · split
        · exact ⟨by trivial, by trivial⟩
        · exact ⟨by trivial, by trivial⟩
        · exact ⟨by trivial, by trivial⟩

theorem process_instance_unknown_class_aux
    (agentClassName : List Char) (inst : NormalizedInstance) (pidStr : List Char)
    (runController : List Char → Option FakeResp → Config →
      Except PyError (Option AgentState) × Config) (cfg : Config)
    (hclass : AGENT_CLS_TO_INST_SUFFIX agentClassName = none) :
    (process_instance agentClassName inst pidStr none none runController cfg).result
        = .error (.keyError agentClassName) ∧
    (process_instance agentClassName inst pidStr none none runController cfg).loopCall
        = none := by
  simp only [process_instance, hclass]
  constructor <;> trivial

/-- C6: for every agent class name without an entry in the instruction-suffix
    registry — every name other than CodeActAgent — building the instruction fails
    with the missing-key error (the UnknownAgentClassError of the spec) and the
    agent loop is never invoked. -/
theorem process_instance_unknown_suffix
    (agentClassName : List Char) (inst : NormalizedInstance) (pidStr : List Char)
    (runController : List Char → Option FakeResp → Config →
      Except PyError (Option AgentState) × Config) (cfg : Config)
    (hclass : agentClassName ≠ "CodeActAgent".data) :
    AGENT_CLS_TO_INST_SUFFIX agentClassName = none ∧
    (process_instance agentClassName inst pidStr none none runController cfg).result
        = .error (.keyError agentClassName) ∧
    (process_instance agentClassName inst pidStr none none runController cfg).loopCall
        = none := by
  have hnone : AGENT_CLS_TO_INST_SUFFIX agentClassName = none := by
    simp [AGENT_CLS_TO_INST_SUFFIX, hclass]
  exact ⟨hnone, process_instance_unknown_class_aux agentClassName inst pidStr
    runController cfg hnone⟩

/-- Witness for C6 at the concrete class MonologueAgent. -/
theorem process_instance_unknown_suffix_witness :
    AGENT_CLS_TO_INST_SUFFIX "MonologueAgent".data = none ∧
    (process_instance "MonologueAgent".data ⟨"q".data, [[], [], [], []], "A".data⟩
        "1".data none none (fun _ _ c => (.ok none, c))
        ⟨"/w".data, "/w".data⟩).result
      = .error (.keyError "MonologueAgent".data) ∧
    (process_instance "MonologueAgent".data ⟨"q".data, [[], [], [], []], "A".data⟩
        "1".data none none (fun _ _ c => (.ok none, c))
        ⟨"/w".data, "/w".data⟩).loopCall
      = none :=
  process_instance_unknown_suffix "MonologueAgent".data
    ⟨"q".data, [[], [], [], []], "A".data⟩ "1".data (fun _ _ c => (.ok none, c))
    ⟨"/w".data, "/w".data⟩ (by decide)

/-- Counterexample to C9 as stated: for the class OtherAgent — absent from the
    fake-user-response registry — process_instance does not pass None to the agent
    loop; it raises at the instruction-suffix lookup and the loop is never
    invoked. -/
theorem process_instance_other_agent_no_loop :
    (process_instance "OtherAgent".data ⟨"q".data, [[], [], [], []], "A".data⟩
        "1".data none none (fun _ _ c => (.ok (some ⟨[], none⟩), c))
        ⟨"/w".data, "/w".data⟩).loopCall = none ∧
    (process_instance "OtherAgent".data ⟨"q".data, [[], [], [], []], "A".data⟩
        "1".data none none (fun _ _ c => (.ok (some ⟨[], none⟩), c))
        ⟨"/w".data, "/w".data⟩).result
      = .error (.keyError "OtherAgent".data) := by
  constructor
  · rfl
  · rfl

/-- C9 amended: for every agent class name absent from the fake-user-response
    registry (any name other than CodeActAgent or MonologueAgent), the dict.get
    lookup itself yields None without raising; however such a class is also absent
    from the instruction-suffix registry, so process_instance fails at that earlier
    lookup and the agent loop is never invoked — None is never actually passed. -/
theorem process_instance_absent_fake_fn
    (agentClassName : List Char) (inst : NormalizedInstance) (pidStr : List Char)
    (runController : List Char → Option FakeResp → Config →
      Except PyError (Option AgentState) × Config) (cfg : Config)
    (hclass₁ : agentClassName ≠ "CodeActAgent".data)
    (hclass₂ : agentClassName ≠ "MonologueAgent".data) :
    AGENT_CLS_TO_FAKE_USER_RESPONSE_FN agentClassName = none ∧
    (process_instance agentClassName inst pidStr none none runController cfg).result
        = .error (.keyError agentClassName) ∧
    (process_instance agentClassName inst pidStr none none runController cfg).loopCall
        = none := by
  have hnone : AGENT_CLS_TO_INST_SUFFIX agentClassName = none := by
    simp [AGENT_CLS_TO_INST_SUFFIX, hclass₁]
  refine ⟨?_, process_instance_unknown_class_aux agentClassName inst pidStr
    runController cfg hnone⟩
  simp [AGENT_CLS_TO_FAKE_USER_RESPONSE_FN, hclass₁, hclass₂]

/-- Witness for C9 amended at the concrete class OtherAgent. -/
theorem process_instance_absent_fake_fn_witness :
    AGENT_CLS_TO_FAKE_USER_RESPONSE_FN "OtherAgent".data = none ∧
    (process_instance "OtherAgent".data ⟨"q".data, [[], [], [], []], "A".data⟩
        "2".data none none (fun _ _ c => (.ok none, c))
        ⟨"/w".data, "/w".data⟩).result
      = .error (.keyError "OtherAgent".data) ∧
    (process_instance "OtherAgent".data ⟨"q".data, [[], [], [], []], "A".data⟩
        "2".data none none (fun _ _ c => (.ok none, c))
        ⟨"/w".data, "/w".data⟩).loopCall
      = none :=
  process_instance_absent_fake_fn "OtherAgent".data
    ⟨"q".data, [[], [], [], []], "A".data⟩ "2".data (fun _ _ c => (.ok none, c))
    ⟨"/w".data, "/w".data⟩ (by decide) (by decide)

theorem process_instance_workspacePathUsed
    (agentClassName : List Char) (inst : NormalizedInstance) (pidStr : List Char)
    (mkdirErr : Option PyError)
    (runController : List Char → Option FakeResp → Config →
      Except PyError (Option AgentState) × Config) (cfg : Config) :
    (process_instance agentClassName inst pidStr none mkdirErr runController
        cfg).workspacePathUsed
      = os_path_join (os_path_join cfg.workspace_mount_path "_eval_workspace".data)
          pidStr := by
  simp only [process_instance]
  split
  · trivial
  · split
    · trivial
    · split <;> trivial

theorem os_path_join_eval_workspace (base pid : List Char)
    (hbase₁ : base ≠ []) (hbase₂ : base.getLast? ≠ some '/')
    (hpid : pid.head? ≠ some '/') :
    os_path_join (os_path_join base "_eval_workspace".data) pid
      = base ++ "/_eval_workspace/".data ++ pid := by
  have h1 : os_path_join base "_eval_workspace".data
      = base ++ '/' :: "_eval_workspace".data := by
    rw [os_path_join, if_neg (by decide), if_neg ?hc]
    case hc =>
      rintro (h | h)
      · exact hbase₁ h
      · exact hbase₂ h
  have hlast : (base ++ '/' :: "_eval_workspace".data).getLast? = some 'e' := by
    rw [List.getLast?_append]
    rfl
  rw [h1, os_path_join, if_neg hpid, if_neg ?hc2]
  case hc2 =>
    rintro (h | h)
    · cases (List.append_eq_nil.mp h).2
    · rw [hlast] at h
      cases h
  have hsplit : "/_eval_workspace/".data
      = ('/' :: "_eval_workspace".data) ++ ['/'] := by decide
  calc (base ++ '/' :: "_eval_workspace".data) ++ '/' :: pid
      = base ++ (('/' :: "_eval_workspace".data) ++ '/' :: pid) := by
        rw [List.append_assoc]
    _ = base ++ ("/_eval_workspace/".data ++ pid) := by
        rw [hsplit]
        simp
    _ = base ++ "/_eval_workspace/".data ++ pid := by rw [List.append_assoc]

/-- C8: under the progress of the run up to the mkdir call, the workspace path
    computed for the instance is the base mount followed by /_eval_workspace/ and
    the process id (for a well-formed, non-empty base not ending in a separator
    and a process id not starting with one), and the mkdir call, made with
    exist_ok, succeeds whether or not the directory already exists: a pre-existing
    directory is returned unchanged and is not an error. -/
theorem workspace_path_and_mkdir_spec
    (agentClassName : List Char) (inst : NormalizedInstance) (pidStr : List Char)
    (mkdirErr : Option PyError)
    (runController : List Char → Option FakeResp → Config →
      Except PyError (Option AgentState) × Config) (cfg : Config)
    (fs : List (List Char))
    (hbase₁ : cfg.workspace_mount_path ≠ [])
    (hbase₂ : cfg.workspace_mount_path.getLast? ≠ some '/')
    (hpid : pidStr.head? ≠ some '/') :
    (process_instance agentClassName inst pidStr none mkdirErr runController
        cfg).workspacePathUsed
      = cfg.workspace_mount_path ++ "/_eval_workspace/".data ++ pidStr ∧
    (∃ fs₂, pathlib_mkdir true fs
        (cfg.workspace_mount_path ++ "/_eval_workspace/".data ++ pidStr) = .ok fs₂ ∧
      (cfg.workspace_mount_path ++ "/_eval_workspace/".data ++ pidStr) ∈ fs₂) ∧
    ((cfg.workspace_mount_path ++ "/_eval_workspace/".data ++ pidStr) ∈ fs →
      pathlib_mkdir true fs
        (cfg.workspace_mount_path ++ "/_eval_workspace/".data ++ pidStr) = .ok fs) := by
  refine ⟨?_, ?_, ?_⟩
  · rw [process_instance_workspacePathUsed agentClassName inst pidStr mkdirErr
      runController cfg]
    exact os_path_join_eval_workspace _ _ hbase₁ hbase₂ hpid
  · by_cases hmem :
      (cfg.workspace_mount_path ++ "/_eval_workspace/".data ++ pidStr) ∈ fs
    · refine ⟨fs, ?_, hmem⟩
      rw [pathlib_mkdir, if_pos hmem]
      rfl
    · refine ⟨(cfg.workspace_mount_path ++ "/_eval_workspace/".data ++ pidStr) :: fs,
        ?_, List.mem_cons_self _ _⟩
      rw [pathlib_mkdir, if_neg hmem]
  · intro hmem
    rw [pathlib_mkdir, if_pos hmem]
    rfl

/-- Witness for C8 with base /ws, process id 123, and a filesystem on which the
    derived directory already exists. -/
theorem workspace_path_and_mkdir_spec_witness :
    (process_instance "CodeActAgent".data ⟨"q".data, [[], [], [], []], "A".data⟩
        "123".data none none (fun _ _ c => (.ok none, c))
        ⟨"/ws".data, "/ws".data⟩).workspacePathUsed
      = "/ws".data ++ "/_eval_workspace/".data ++ "123".data ∧
    (∃ fs₂, pathlib_mkdir true ["/ws/_eval_workspace/123".data]
        ("/ws".data ++ "/_eval_workspace/".data ++ "123".data) = .ok fs₂ ∧
      ("/ws".data ++ "/_eval_workspace/".data ++ "123".data) ∈ fs₂) ∧
    (("/ws".data ++ "/_eval_workspace/".data ++ "123".data)
        ∈ ["/ws/_eval_workspace/123".data] →
      pathlib_mkdir true ["/ws/_eval_workspace/123".data]
        ("/ws".data ++ "/_eval_workspace/".data ++ "123".data)
        = .ok ["/ws/_eval_workspace/123".data]) :=
  workspace_path_and_mkdir_spec "CodeActAgent".data
    ⟨"q".data, [[], [], [], []], "A".data⟩ "123".data none
    (fun _ _ c => (.ok none, c)) ⟨"/ws".data, "/ws".data⟩
    ["/ws/_eval_workspace/123".data] (by decide) (by decide) (by decide)
